import Mathlib

/-!
# Verification of the nexxT dataflow runtime core

Shallow embedding of the C++ execution engine of the nexxT repository
(`src/nexxT/src`), covering the input-port queue with its eviction rules
(`InputPortInterface::addToQueue`), the `getData` lookup, the dynamic-queue
semaphore accounting of `InputPortInterface::receiveAsync`, the per-thread
`Executor`, the `InterThreadConnection`, and the lifecycle checks of
`BaseFilterEnvironment`.

Modelling conventions:
* C++ `double` values (queue sizes in seconds, delays in seconds) are embedded
  as exact rationals `ℚ`; timestamps (`int64_t`) as `ℤ`.  All arithmetic the
  code performs on them (division by the constant `TIMESTAMP_RES = 1e-6`,
  subtraction, comparison) is exact for the inputs of interest.
* Thread checks are embedded as a boolean `onOwnThread` parameter where a
  claim needs them; claims scoped to the owning thread instantiate it to
  `true`.
* Qt signal emission and the user callback `onPortDataChanged` are embedded as
  explicit result fields (`transmitted`, `callbackInvoked`) and exception
  outcomes as `Except`.
-/

namespace NexxT

/-- Embedding of `nexxT::DataSample` (`DataSamples.hpp`): payload bytes,
type tag and a microsecond timestamp. -/
structure DataSample where
  content : String
  datatype : String
  timestamp : Int
  deriving Repr, DecidableEq, Inhabited

/-- `DataSample::TIMESTAMP_RES = 1e-6` (`DataSamples.cpp`): resolution of the
timestamps in seconds. -/
def TIMESTAMP_RES : ℚ := 1 / 1000000

/-- The sample-count eviction loop of `InputPortInterface::addToQueue`:
`while(queue.size() > queueSizeSamples) queue.removeLast();`.  The queue is
stored newest-first, so `dropLast` removes the oldest sample.  (Called only
with `k > 0`; `k : ℕ` reflects the positivity guard at the call site.) -/
def evictCount (k : Nat) (q : List DataSample) : List DataSample :=
  if q.length > k then evictCount k q.dropLast else q
termination_by q.length
decreasing_by
  simp only [List.length_dropLast]
  omega

/-- The time-window eviction loop of `InputPortInterface::addToQueue`:
`while(size > 0 && first.ts - last.ts > queueSizeTime) removeLast();`
where `queueSizeTime = queueSizeSeconds / TIMESTAMP_RES`. -/
def evictTime (bound : ℚ) (q : List DataSample) : List DataSample :=
  if h : q ≠ [] ∧ ((q.headI.timestamp - q.getLastI.timestamp : ℤ) : ℚ) > bound then
    evictTime bound q.dropLast
  else
    q
termination_by q.length
decreasing_by
  have : q ≠ [] := h.1
  have : 0 < q.length := List.length_pos.mpr this
  simp only [List.length_dropLast]
  omega

/-- Embedding of `InputPortInterface::addToQueue`
(`InputPortInterface.cpp:139-161`): prepend the sample, then evict from the
oldest end by the sample-count bound (if positive), then by the time-window
bound (if positive). -/
def addToQueue (queueSizeSamples : Int) (queueSizeSeconds : ℚ)
    (q : List DataSample) (s : DataSample) : List DataSample :=
  let q1 := s :: q
  let q2 := if queueSizeSamples > 0 then evictCount queueSizeSamples.toNat q1 else q1
  if queueSizeSeconds > 0 then evictTime (queueSizeSeconds / TIMESTAMP_RES) q2 else q2

theorem evictCount_eq_take (k : Nat) (q : List DataSample) :
    evictCount k q = q.take (min q.length k) := by
  induction q using evictCount.induct k with
  | case1 q hgt ih =>
    rw [evictCount, if_pos hgt, ih, List.dropLast_eq_take]
    rw [List.take_take, List.length_take]
    congr 1
    omega
  | case2 q hle =>
    rw [evictCount, if_neg hle]
    have : min q.length k = q.length := by omega
    rw [this, List.take_length]

theorem evictTime_exists_take (bound : ℚ) (q : List DataSample) :
    ∃ n, evictTime bound q = q.take n := by
  induction q using evictTime.induct bound with
  | case1 q h ih =>
    obtain ⟨n, hn⟩ := ih
    refine ⟨min n (q.length - 1), ?_⟩
    rw [evictTime, dif_pos h, hn, List.dropLast_eq_take, List.take_take]
  | case2 q h =>
    exact ⟨q.length, by rw [evictTime, dif_neg h, List.take_length]⟩

theorem evictTime_ne_nil (bound : ℚ) (hb : 0 ≤ bound) (q : List DataSample)
    (hq : q ≠ []) : evictTime bound q ≠ [] := by
  induction q using evictTime.induct bound with
  | case1 q h ih =>
    rw [evictTime, dif_pos h]
    apply ih
    -- if the loop fires, the span is positive, hence the queue has ≥ 2 elements
    rcases q with _ | ⟨a, _ | ⟨b, t⟩⟩
    · exact absurd rfl h.1
    · exfalso
      have hspan := h.2
      simp [List.headI, List.getLastI_eq_getLast?] at hspan
      linarith
    · simp [List.dropLast]
  | case2 q h =>
    rw [evictTime, dif_neg h]
    exact hq

theorem evictTime_span_le (bound : ℚ) (q : List DataSample) :
    evictTime bound q = [] ∨
      (((evictTime bound q).headI.timestamp - (evictTime bound q).getLastI.timestamp : ℤ) : ℚ)
        ≤ bound := by
  induction q using evictTime.induct bound with
  | case1 q h ih =>
    rw [evictTime, dif_pos h]
    exact ih
  | case2 q h =>
    rw [evictTime, dif_neg h]
    by_cases hq : q = []
    · exact Or.inl hq
    · right
      push_neg at h
      exact le_of_not_lt (fun hc => absurd (h hq) (not_le.mpr hc))

theorem evictCount_ne_nil (k : Nat) (hk : 0 < k) (q : List DataSample)
    (hq : q ≠ []) : evictCount k q ≠ [] := by
  rw [evictCount_eq_take]
  have h1 : 0 < q.length := List.length_pos.mpr hq
  intro hcon
  have h2 : (q.take (min q.length k)).length = 0 := by rw [hcon]; rfl
  rw [List.length_take] at h2
  omega

theorem addToQueue_ne_nil (K : Int) (T : ℚ) (q : List DataSample) (s : DataSample) :
    addToQueue K T q s ≠ [] := by
  unfold addToQueue
  by_cases hK : K > 0
  · by_cases hT : T > 0
    · simp only [if_pos hK, if_pos hT]
      apply evictTime_ne_nil
      · exact le_of_lt (div_pos hT (by norm_num [TIMESTAMP_RES]))
      · apply evictCount_ne_nil _ (by omega) _ (by simp)
    · simp only [if_pos hK, if_neg hT]
      apply evictCount_ne_nil _ (by omega) _ (by simp)
  · by_cases hT : T > 0
    · simp only [if_neg hK, if_pos hT]
      apply evictTime_ne_nil
      · exact le_of_lt (div_pos hT (by norm_num [TIMESTAMP_RES]))
      · simp
    · simp only [if_neg hK, if_neg hT]
      simp

/-- Error kinds surfaced by the port operations (spec section 7): the C++
code throws `std::runtime_error` for thread violations and argument
violations and `std::out_of_range` for window violations. -/
inductive PortError where
  | wrongThread
  | invalidArgument
  | outOfRange
  deriving Repr, DecidableEq

/-- The scanning loop of `InputPortInterface::getData` for the
`delaySeconds >= 0` branch (`InputPortInterface.cpp:72-84`):
`for(i = 0; i < size && double(q[0].ts - q[i].ts) < delayTime; i++);`.
Returns the final value of `i`: the number of leading elements whose age is
strictly below `delayTime`. -/
def timeScan (headTs : Int) (delayTime : ℚ) : List DataSample → Nat
  | [] => 0
  | x :: rest =>
      if ((headTs - x.timestamp : ℤ) : ℚ) < delayTime then
        1 + timeScan headTs delayTime rest
      else 0

/-- Embedding of `InputPortInterface::getData`
(`InputPortInterface.cpp:54-86`).  The queue is stored newest-first
(index 0 = newest).  `onOwnThread` embeds the
`QThread::currentThread() != thread()` check. -/
def getData (onOwnThread : Bool) (q : List DataSample)
    (delaySamples : Int) (delaySeconds : ℚ) : Except PortError DataSample :=
  if !onOwnThread then .error .wrongThread
  else if delaySamples ≥ 0 ∧ delaySeconds ≥ 0 then .error .invalidArgument
  else if delaySamples ≥ 0 then
    if delaySamples ≥ (q.length : Int) then .error .outOfRange
    else .ok (q.getD delaySamples.toNat default)
  else if delaySeconds ≥ 0 then
    let delayTime := delaySeconds / TIMESTAMP_RES
    let i := timeScan q.headI.timestamp delayTime q
    if i ≥ q.length then .error .outOfRange
    else .ok (q.getD i default)
  else .error .invalidArgument

theorem timeScan_le_length (h : Int) (dT : ℚ) (l : List DataSample) :
    timeScan h dT l ≤ l.length := by
  induction l with
  | nil => simp [timeScan]
  | cons x rest ih =>
    simp only [timeScan, List.length_cons]
    split
    · omega
    · omega

theorem timeScan_prefix_lt (h : Int) (dT : ℚ) (l : List DataSample) :
    ∀ j < timeScan h dT l, ((h - (l.getD j default).timestamp : ℤ) : ℚ) < dT := by
  induction l with
  | nil => simp [timeScan]
  | cons x rest ih =>
    intro j hj
    simp only [timeScan] at hj
    split at hj
    · rename_i hx
      match j with
      | 0 => simpa using hx
      | j + 1 =>
        simp only [List.getD_cons_succ]
        exact ih j (by omega)
    · omega

theorem timeScan_stop_ge (h : Int) (dT : ℚ) (l : List DataSample)
    (hlt : timeScan h dT l < l.length) :
    ¬ ((h - (l.getD (timeScan h dT l) default).timestamp : ℤ) : ℚ) < dT := by
  induction l with
  | nil => simp at hlt
  | cons x rest ih =>
    by_cases hx : ((h - x.timestamp : ℤ) : ℚ) < dT
    · simp only [timeScan, if_pos hx, List.length_cons] at hlt ⊢
      rw [show 1 + timeScan h dT rest = timeScan h dT rest + 1 by omega]
      simp only [List.getD_cons_succ]
      exact ih (by omega)
    · simp only [timeScan, if_neg hx]
      simpa using hx

theorem timeScan_eq_of_first (h : Int) (dT : ℚ) (l : List DataSample) (i : Nat)
    (hi : i < l.length)
    (hge : ¬ ((h - (l.getD i default).timestamp : ℤ) : ℚ) < dT)
    (hbelow : ∀ j < i, ((h - (l.getD j default).timestamp : ℤ) : ℚ) < dT) :
    timeScan h dT l = i := by
  induction l generalizing i with
  | nil => simp at hi
  | cons x rest ih =>
    simp only [timeScan]
    match i with
    | 0 =>
      simp only [List.getD_cons_zero] at hge
      rw [if_neg hge]
    | i + 1 =>
      have hx : ((h - x.timestamp : ℤ) : ℚ) < dT := by
        have := hbelow 0 (by omega)
        simpa using this
      rw [if_pos hx]
      have := ih i (by simpa using hi)
        (by simpa using hge)
        (fun j hj => by
          have := hbelow (j + 1) (by omega)
          simpa using this)
      omega

/-- The filter lifecycle states of `FilterState` (`Filters.hpp` /
`FilterEnvironment.cpp`). -/
inductive FilterState where
  | constructing | constructed
  | initializing | initialized
  | opening | opened
  | starting | active
  | stopping | closing | deinitializing
  | destructing | destructed
  deriving Repr, DecidableEq

/-- Log levels of the nexxT logging service (`Logger.hpp`). -/
inductive LogLevel where
  | internalLvl | debug | info | warn | error | critical
  deriving Repr, DecidableEq

/-- Embedding of `BaseFilterEnvironment::portDataChanged`
(`FilterEnvironment.cpp:88-114`).  `cb` is the outcome of the user callback
`onPortDataChanged` (`.error` embeds a thrown C++ exception).  The result is
`.error` when `portDataChanged` itself throws (state neither `ACTIVE` nor
`OPENED`); otherwise `.ok (invoked, logs)` where `invoked` records whether the
user callback ran. -/
def portDataChanged (state : FilterState) (hasPlugin : Bool)
    (cb : Except String Unit) : Except String (Bool × List (LogLevel × String)) :=
  if state ≠ .active then
    if state ≠ .opened then
      .error "Unexpected filter state, expected ACTIVE or INITIALIZED."
    else
      .ok (false, [(.info, "DataSample discarded because application has been stopped already.")])
  else
    if hasPlugin then
      match cb with
      | .ok _ => .ok (true, [])
      | .error e => .ok (true, [(.error, "Unexpected exception during onPortDataChanged: " ++ e)])
    else
      .ok (false, [(.error, "no plugin found")])

/-- Result of a sample delivery on an input port. -/
structure RcvSyncResult where
  queue : List DataSample
  callbackInvoked : Bool
  logs : List (LogLevel × String)
  deriving Repr, DecidableEq

/-- Embedding of `InputPortInterface::receiveSync`
(`InputPortInterface.cpp:285-299`) on the owning thread: `addToQueue` then
`transmit` (profiling hooks omitted), the whole body wrapped in a
`try/catch` that logs any exception at Error level and returns normally.
The totality of this function (it returns `RcvSyncResult`, not `Except`)
embeds that catch: no exception propagates to the caller. -/
def receiveSync (K : Int) (T : ℚ) (state : FilterState) (hasPlugin : Bool)
    (q : List DataSample) (s : DataSample) (cb : Except String Unit) : RcvSyncResult :=
  let q' := addToQueue K T q s
  match portDataChanged state hasPlugin cb with
  | .ok (invoked, logs) => ⟨q', invoked, logs⟩
  | .error e => ⟨q', false, [(.error, "Unhandled exception in port data changed: " ++ e)]⟩

/-- Outcome of `OutputPortInterface::transmit`
(`OutputPortInterface.cpp:28-35`): the function checks only the calling
thread and then emits the `transmitSample` signal; it never inspects the
filter lifecycle state. -/
inductive TransmitOutcome where
  | wrongThread
  | emitted
  deriving Repr, DecidableEq

/-- Embedding of `OutputPortInterface::transmit`: throw on a foreign thread,
otherwise emit. -/
def OutputPort_transmit (onOwnThread : Bool) : TransmitOutcome :=
  if onOwnThread then .emitted else .wrongThread

/-- A direct (same-thread) connection delivery: `transmit` emits
`transmitSample`, which is connected to the receiving input port's
`receiveSync` slot (`OutputPortInterface::setupDirectConnection`). -/
def transmitDirect (onOwnThread : Bool) (state : FilterState) (hasPlugin : Bool)
    (K : Int) (T : ℚ) (q : List DataSample) (s : DataSample)
    (cb : Except String Unit) : TransmitOutcome × Option RcvSyncResult :=
  match OutputPort_transmit onOwnThread with
  | .wrongThread => (.wrongThread, none)
  | .emitted => (.emitted, some (receiveSync K T state hasPlugin q s cb))

/-- State of an input port used by the dynamic-queue variant of
`receiveAsync`: the queue, the per-semaphore counter `semaphoreN`
(`none` = this semaphore has not been seen yet) and the number of permits
currently available on the connection's semaphore.  A single semaphore is
modelled, matching a port fed by one inter-thread connection. -/
structure DynPortState where
  queue : List DataSample
  semN : Option Nat
  semAvail : Nat
  deriving Repr, DecidableEq

/-- The `try_acquire` loop of the dynamic-queue branch:
`for(i = 1; i < delta; i++) if(tryAcquire(1)) N--; else break;`.
Given the number of attempts and the available permits, returns
`(successes, remaining permits)`. -/
def tryAcquireLoop : Nat → Nat → Nat × Nat
  | 0, avail => (0, avail)
  | k + 1, avail =>
      if avail ≥ 1 then
        let r := tryAcquireLoop k (avail - 1)
        (r.1 + 1, r.2)
      else (0, avail)

/-- Result of a dynamic-queue `receiveAsync` call. -/
structure DynRcvResult where
  queue : List DataSample
  semN : Nat
  semAvail : Nat
  released : Nat
  acquired : Nat
  transmitted : Bool
  deriving Repr, DecidableEq

/-- Embedding of the dynamic-queue branch of `InputPortInterface::receiveAsync`
(`InputPortInterface.cpp:229-258`), for `interthreadDynamicQueue == true` and
a non-null semaphore, running on the owning thread (the main-thread
`processEvents` detour does not apply on worker threads): enqueue the sample,
initialize the per-semaphore counter to 1 on first sight, compute
`delta = N - queue.size()`, then either release `1 - delta` permits
(`delta <= 0`) or consume the held permit and opportunistically `tryAcquire`
up to `delta - 1` more; finally call `transmit`. -/
def receiveAsyncDyn (K : Int) (T : ℚ) (st : DynPortState) (s : DataSample) :
    DynRcvResult :=
  let q' := addToQueue K T st.queue s
  let n0 : Nat := st.semN.getD 1
  let delta : Int := (n0 : Int) - (q'.length : Int)
  if delta ≤ 0 then
    { queue := q'
      semN := n0 + (-delta).toNat
      semAvail := st.semAvail + (1 - delta).toNat
      released := (1 - delta).toNat
      acquired := 0
      transmitted := true }
  else
    let r := tryAcquireLoop (delta - 1).toNat st.semAvail
    { queue := q'
      semN := n0 - 1 - r.1
      semAvail := r.2
      released := 0
      acquired := r.1
      transmitted := true }

theorem tryAcquireLoop_eq (k avail : Nat) :
    tryAcquireLoop k avail = (min k avail, avail - min k avail) := by
  induction k generalizing avail with
  | zero => simp [tryAcquireLoop]
  | succ k ih =>
    by_cases h : avail ≥ 1
    · simp only [tryAcquireLoop, if_pos h, ih]
      refine Prod.ext ?_ ?_ <;> simp <;> omega
    · simp only [tryAcquireLoop, if_neg h]
      refine Prod.ext ?_ ?_ <;> simp <;> omega

/-- Embedding of `ExecutorD::ReceiveEvent` (`Executor.cpp`): the destination
input port, the filter owning it (flattening
`inputPort->environment()->getPlugin()`), the sample, and whether a semaphore
accompanies the event (`semaphore != 0` selects `receiveAsync` over
`receiveSync` at dispatch). -/
structure ReceiveEvent where
  port : Nat
  filter : Nat
  sample : DataSample
  hasSemaphore : Bool
  deriving Repr, DecidableEq, Inhabited

/-- Embedding of `ExecutorD` (`Executor.cpp`): the pending FIFO, the set of
blocked filters and the stopped flag.  (`numNotifiesInQueue` only suppresses
redundant event-loop wake-ups and is not modelled.) -/
structure ExecState where
  pending : List ReceiveEvent
  blocked : Finset Nat
  stopped : Bool
  deriving DecidableEq

/-- The scanning loop of `Executor::step` (`Executor.cpp:193-212`): walk the
pending FIFO front-to-back and pop the first event whose destination filter
is not blocked.  Returns the popped event and the remaining FIFO.  (The C++
guard `blockedFilters.empty() || blockedFilters.count(f) == 0` is equivalent
to `f ∉ blocked`.) -/
def scanPending (blocked : Finset Nat) : List ReceiveEvent →
    Option (ReceiveEvent × List ReceiveEvent)
  | [] => none
  | ev :: rest =>
      if ev.filter ∈ blocked then
        match scanPending blocked rest with
        | some (e, r) => some (e, ev :: r)
        | none => none
      else some (ev, rest)

/-- The per-call blocked-filter set of `Executor::step`: the executor's
blocked set with `fromFilter` inserted for the duration of the call
(`StepFunctionHelper` constructor, `Executor.cpp:156-167`). -/
def stepBlocked (st : ExecState) (fromFilter : Option Nat) : Finset Nat :=
  match fromFilter with
  | some f => insert f st.blocked
  | none => st.blocked

/-- The blocked-filter set after `Executor::step` returns: the
`StepFunctionHelper` destructor erases `fromFilter` again
(`Executor.cpp:168-183`). -/
def stepBlockedAfter (st : ExecState) (fromFilter : Option Nat) : Finset Nat :=
  match fromFilter with
  | some f => (stepBlocked st fromFilter).erase f
  | none => stepBlocked st fromFilter

/-- Embedding of `Executor::step` (`Executor.cpp:186-215`) together with the
RAII `StepFunctionHelper` (`Executor.cpp:145-184`): when not stopped, insert
`fromFilter` (if non-null) into `blockedFilters`, scan the FIFO, pop and
dispatch the first deliverable event, and erase `fromFilter` on scope exit.
Returns (result, new executor state, dispatched event). -/
def Executor_step (st : ExecState) (fromFilter : Option Nat) :
    Bool × ExecState × Option ReceiveEvent :=
  if st.stopped then (false, st, none)
  else
    match scanPending (stepBlocked st fromFilter) st.pending with
    | some (ev, rest) =>
        (true, { st with pending := rest, blocked := stepBlockedAfter st fromFilter }, some ev)
    | none =>
        (false, { st with blocked := stepBlockedAfter st fromFilter }, none)

/-- Embedding of `Executor::registerPendingRcvSync` (`Executor.cpp:70-85`):
append a semaphore-less event to the FIFO unless stopped. -/
def registerPendingRcvSync (st : ExecState) (port filter : Nat) (s : DataSample) :
    ExecState :=
  if st.stopped then st
  else { st with pending := st.pending ++ [⟨port, filter, s, false⟩] }

/-- Embedding of `Executor::registerPendingRcvAsync` (`Executor.cpp:87-102`):
append an event carrying a semaphore to the FIFO unless stopped. -/
def registerPendingRcvAsync (st : ExecState) (port filter : Nat) (s : DataSample) :
    ExecState :=
  if st.stopped then st
  else { st with pending := st.pending ++ [⟨port, filter, s, true⟩] }

/-- Embedding of `Executor::clear` (`Executor.cpp:252-257`): set `stopped`,
empty the FIFO and the blocked-filter set. -/
def Executor_clear (_st : ExecState) : ExecState :=
  { pending := [], blocked := ∅, stopped := true }

/-- The executor operations that can follow a `clear()`. -/
inductive ExecOp where
  | regSync (port filter : Nat) (s : DataSample)
  | regAsync (port filter : Nat) (s : DataSample)
  | stepOp (fromFilter : Option Nat)

/-- Apply one executor operation to the state. -/
def applyOp (st : ExecState) : ExecOp → ExecState
  | .regSync p f s => registerPendingRcvSync st p f s
  | .regAsync p f s => registerPendingRcvAsync st p f s
  | .stepOp f => (Executor_step st f).2.1

/-- Apply a sequence of executor operations. -/
def applyOps (st : ExecState) (ops : List ExecOp) : ExecState :=
  ops.foldl applyOp st

/-- Embedding of `InterThreadConnectionD` (`Ports.cpp:42-48`): a counting
semaphore and the atomic `stopped` flag. -/
structure ITCState where
  semAvail : Nat
  stopped : Bool
  deriving Repr, DecidableEq

/-- `InterThreadConnection::InterThreadConnection` (`Ports.cpp:353-357`)
constructs its private data as `InterThreadConnectionD(1)`, whose initializer
list is `semaphore(n), stopped(true)`. -/
def mkInterThreadConnection : ITCState :=
  { semAvail := 1, stopped := true }

/-- Outcome of one iteration of the `InterThreadConnection::receiveSample`
loop: the sample is dropped (stopped), forwarded via the
`transmitInterThread` signal (a permit was acquired), or the loop retries
(`blockedRetry`) waiting for a permit or a stop. -/
inductive ITCOutcome where
  | dropped
  | forwarded
  | blockedRetry
  deriving Repr, DecidableEq

/-- Embedding of `InterThreadConnection::receiveSample`
(`Ports.cpp:364-379`).  The C++ body loops; one iteration is modelled (state
changes between iterations come from other threads, so under an unchanged
state `blockedRetry` means the loop spins).  Returns the outcome, the new
state and the emitted warning logs. -/
def ITC_receiveSample (st : ITCState) : ITCOutcome × ITCState × List (LogLevel × String) :=
  if st.stopped then
    (.dropped, st, [(.warn, "The inter-thread connection is set to stopped mode; data sample discarded.")])
  else if st.semAvail ≥ 1 then
    (.forwarded, { st with semAvail := st.semAvail - 1 }, [])
  else
    (.blockedRetry, st, [])

/-- `InterThreadConnection::setStopped` (`Ports.cpp:381-384`). -/
def ITC_setStopped (st : ITCState) (stopped : Bool) : ITCState :=
  { st with stopped := stopped }

/-- Embedding of `BaseFilterEnvironmentD` as far as
`setDynamicPortsSupported` needs it: the two support flags and the lists of
currently existing dynamic ports. -/
structure EnvState where
  dynamicInputPortsSupported : Bool
  dynamicOutputPortsSupported : Bool
  dynamicInputPorts : List String
  dynamicOutputPorts : List String
  deriving Repr, DecidableEq

/-- Embedding of `BaseFilterEnvironment::setDynamicPortsSupported`
(`FilterEnvironment.cpp:58-79`): both support flags are overwritten first;
only afterwards the existing dynamic ports are checked and an exception is
thrown if one exists while support was declared false.  The returned state is
the state at return or at the throw point; `some msg` is the thrown
exception. -/
def setDynamicPortsSupported (st : EnvState)
    (dynInPortsSupported dynOutPortsSupported : Bool) : EnvState × Option String :=
  let st' := { st with dynamicInputPortsSupported := dynInPortsSupported,
                       dynamicOutputPortsSupported := dynOutPortsSupported }
  if !dynInPortsSupported ∧ st.dynamicInputPorts.length > 0 then
    (st', some "Dynamic input ports are not supported")
  else if !dynOutPortsSupported ∧ st.dynamicOutputPorts.length > 0 then
    (st', some "Dynamic output ports are not supported")
  else
    (st', none)

theorem scanPending_none_iff (b : Finset Nat) (l : List ReceiveEvent) :
    scanPending b l = none ↔ ∀ ev ∈ l, ev.filter ∈ b := by
  induction l with
  | nil => simp [scanPending]
  | cons x xs ih =>
    by_cases hx : x.filter ∈ b
    · simp only [scanPending, if_pos hx]
      match hsc : scanPending b xs with
      | some (e, r) =>
        simp only []
        constructor
        · intro hcon; cases hcon
        · intro hall
          have : scanPending b xs = none := (ih).mpr (fun ev hev => hall ev (List.mem_cons_of_mem _ hev))
          rw [this] at hsc; cases hsc
      | none =>
        simp only []
        constructor
        · intro _ ev hev
          rcases List.mem_cons.mp hev with rfl | hev'
          · exact hx
          · exact (ih.mp hsc) ev hev'
        · intro _; trivial
    · simp only [scanPending, if_neg hx]
      constructor
      · intro hcon; cases hcon
      · intro hall
        exact absurd (hall x (List.mem_cons_self x xs)) hx

theorem scanPending_some_spec (b : Finset Nat) (l : List ReceiveEvent)
    (ev : ReceiveEvent) (rest : List ReceiveEvent)
    (h : scanPending b l = some (ev, rest)) :
    ∃ i, i < l.length ∧ l.getD i default = ev ∧ ev.filter ∉ b ∧
      (∀ j < i, (l.getD j default).filter ∈ b) ∧ rest = l.eraseIdx i := by
  induction l generalizing ev rest with
  | nil => simp [scanPending] at h
  | cons x xs ih =>
    by_cases hx : x.filter ∈ b
    · rw [scanPending, if_pos hx] at h
      match hsc : scanPending b xs with
      | some (e, r) =>
        rw [hsc] at h
        injection h with h'
        injection h' with he hr
        subst he
        obtain ⟨i, hi, hget, hnb, hpre, hrest⟩ := ih e r hsc
        refine ⟨i + 1, by simp only [List.length_cons]; omega, by simpa using hget, hnb,
          ?_, ?_⟩
        · intro j hj
          match j with
          | 0 => simpa using hx
          | j + 1 =>
            simp only [List.getD_cons_succ]
            exact hpre j (by omega)
        · rw [← hr, hrest]
          rfl
      | none =>
        rw [hsc] at h
        cases h
    · rw [scanPending, if_neg hx] at h
      injection h with h'
      injection h' with he hr
      subst he
      exact ⟨0, by simp, by simp, hx, by omega, by rw [← hr]; rfl⟩

/-- The `delta` value of the dynamic-queue branch of
`InputPortInterface::receiveAsync`:
`int32_t delta = semaphoreN[semaphore] - queue.size();`, computed after the
sample has been enqueued. -/
def dynDelta (K : Int) (T : ℚ) (st : DynPortState) (s : DataSample) : Int :=
  ((st.semN.getD 1 : Nat) : Int) - ((addToQueue K T st.queue s).length : Int)

/-- C1: for an input port with `queueSizeSamples = K > 0`, a single
`addToQueue` leaves at most `K` samples in the queue; for
`queueSizeSeconds = T > 0`, after `addToQueue` the timestamp difference
between the newest (head) and the oldest (tail) queued sample is at most
`T / 1e-6` microseconds; eviction removes samples only from the oldest end
(the result is a prefix of the prepended queue); and `receiveSync` updates
the queue exactly through `addToQueue`, so the bounds hold after every
`receiveSync` as well. -/
theorem addToQueue_window_bounds (K : Int) (T : ℚ) (q : List DataSample)
    (s : DataSample) :
    (K > 0 → ((addToQueue K T q s).length : Int) ≤ K) ∧
    (T > 0 → addToQueue K T q s ≠ [] ∧
      (((addToQueue K T q s).headI.timestamp
          - (addToQueue K T q s).getLastI.timestamp : ℤ) : ℚ) ≤ T / TIMESTAMP_RES) ∧
    (∃ n, addToQueue K T q s = (s :: q).take n) ∧
    (∀ state hasPlugin cb,
      (receiveSync K T state hasPlugin q s cb).queue = addToQueue K T q s) := by
  refine ⟨?_, ?_, ?_, ?_⟩
  · intro hK
    unfold addToQueue
    simp only [if_pos hK]
    have hcnt : (evictCount K.toNat (s :: q)).length ≤ K.toNat := by
      rw [evictCount_eq_take, List.length_take]
      omega
    by_cases hT : T > 0
    · simp only [if_pos hT]
      obtain ⟨n, hn⟩ := evictTime_exists_take (T / TIMESTAMP_RES) (evictCount K.toNat (s :: q))
      rw [hn, List.length_take]
      omega
    · simp only [if_neg hT]
      omega
  · intro hT
    refine ⟨addToQueue_ne_nil K T q s, ?_⟩
    have hsp : addToQueue K T q s
        = evictTime (T / TIMESTAMP_RES)
            (if K > 0 then evictCount K.toNat (s :: q) else (s :: q)) := by
      unfold addToQueue
      by_cases hK : K > 0
      · simp only [if_pos hK, if_pos hT]
      · simp only [if_neg hK, if_pos hT]
    rcases evictTime_span_le (T / TIMESTAMP_RES)
        (if K > 0 then evictCount K.toNat (s :: q) else (s :: q)) with hnil | hle
    · exact absurd (hsp.trans hnil) (addToQueue_ne_nil K T q s)
    · rw [hsp]
      exact hle
  · have h2 : ∃ a, (if K > 0 then evictCount K.toNat (s :: q) else (s :: q))
        = (s :: q).take a := by
      by_cases hK : K > 0
      · exact ⟨_, by rw [if_pos hK, evictCount_eq_take]⟩
      · exact ⟨(s :: q).length, by rw [if_neg hK, List.take_length]⟩
    obtain ⟨a, ha⟩ := h2
    unfold addToQueue
    by_cases hT : T > 0
    · simp only [if_pos hT]
      obtain ⟨m, hm⟩ := evictTime_exists_take (T / TIMESTAMP_RES)
        (if K > 0 then evictCount K.toNat (s :: q) else (s :: q))
      refine ⟨min m a, ?_⟩
      rw [ha] at hm
      rw [ha, hm, List.take_take]
    · simp only [if_neg hT]
      exact ⟨a, ha⟩
  · intro state hasPlugin cb
    unfold receiveSync
    match portDataChanged state hasPlugin cb with
    | .ok (invoked, logs) => rfl
    | .error e => rfl

/-- Witness for C1 at `K = 2`, `T = 1` second, a one-element queue and a new
sample. -/
theorem addToQueue_window_bounds_witness :
    ((addToQueue 2 1 [⟨"", "", 5⟩] ⟨"", "", 10⟩).length : Int) ≤ 2 ∧
    (addToQueue 2 1 [⟨"", "", 5⟩] ⟨"", "", 10⟩ ≠ [] ∧
      (((addToQueue 2 1 [⟨"", "", 5⟩] ⟨"", "", 10⟩).headI.timestamp
          - (addToQueue 2 1 [⟨"", "", 5⟩] ⟨"", "", 10⟩).getLastI.timestamp : ℤ) : ℚ)
        ≤ 1 / TIMESTAMP_RES) :=
  ⟨(addToQueue_window_bounds 2 1 [⟨"", "", 5⟩] ⟨"", "", 10⟩).1 (by norm_num),
   (addToQueue_window_bounds 2 1 [⟨"", "", 5⟩] ⟨"", "", 10⟩).2.1 (by norm_num)⟩

/-- C2: on the owning thread, `getData` fails with `InvalidArgument` when
both delays are non-negative or both are negative; with `delaySamples ≥ 0`
(and `delaySeconds < 0`) it fails with `OutOfRange` when
`delaySamples ≥ queue.size()` and otherwise returns the queue element at
index `delaySamples`, the newest sample (the one just prepended) being at
index 0. -/
theorem getData_argument_cases (q : List DataSample) (ds : Int) (dsec : ℚ) :
    ((ds ≥ 0 ∧ dsec ≥ 0) ∨ (ds < 0 ∧ dsec < 0) →
       getData true q ds dsec = .error .invalidArgument) ∧
    (ds ≥ 0 → dsec < 0 → ds ≥ (q.length : Int) →
       getData true q ds dsec = .error .outOfRange) ∧
    (ds ≥ 0 → dsec < 0 → ds < (q.length : Int) →
       getData true q ds dsec = .ok (q.getD ds.toNat default)) ∧
    (∀ s : DataSample, getData true (s :: q) 0 (-1) = .ok s) := by
  refine ⟨?_, ?_, ?_, ?_⟩
  · rintro (⟨h1, h2⟩ | ⟨h1, h2⟩)
    · simp only [getData, Bool.not_true, Bool.false_eq_true, if_false]
      rw [if_pos ⟨h1, h2⟩]
    · simp only [getData, Bool.not_true, Bool.false_eq_true, if_false]
      rw [if_neg (by rintro ⟨hc, _⟩; omega), if_neg (by omega), if_neg (by exact absurd · (not_le.mpr h2))]
  · intro h1 h2 h3
    simp only [getData, Bool.not_true, Bool.false_eq_true, if_false]
    rw [if_neg (by rintro ⟨_, hc⟩; exact absurd hc (not_le.mpr h2)), if_pos h1, if_pos h3]
  · intro h1 h2 h3
    simp only [getData, Bool.not_true, Bool.false_eq_true, if_false]
    rw [if_neg (by rintro ⟨_, hc⟩; exact absurd hc (not_le.mpr h2)), if_pos h1,
      if_neg (not_le.mpr h3)]
  · intro s
    simp only [getData, Bool.not_true, Bool.false_eq_true, if_false]
    rw [if_neg (by rintro ⟨_, hc⟩; norm_num at hc), if_pos (by omega),
      if_neg (by simp only [List.length_cons]; omega)]
    simp

/-- Witness for C2: `getData(3, -1)` on a 3-element queue fails with
`OutOfRange`, and `getData(-1, -1)` fails with `InvalidArgument`. -/
theorem getData_argument_cases_witness :
    getData true [⟨"", "", 3⟩, ⟨"", "", 2⟩, ⟨"", "", 1⟩] 3 (-1) = .error .outOfRange ∧
    getData true [⟨"", "", 3⟩, ⟨"", "", 2⟩, ⟨"", "", 1⟩] (-1) (-1) = .error .invalidArgument :=
  ⟨(getData_argument_cases [⟨"", "", 3⟩, ⟨"", "", 2⟩, ⟨"", "", 1⟩] 3 (-1)).2.1
      (by norm_num) (by norm_num) (by norm_num),
   (getData_argument_cases [⟨"", "", 3⟩, ⟨"", "", 2⟩, ⟨"", "", 1⟩] (-1) (-1)).1
      (Or.inr ⟨by norm_num, by norm_num⟩)⟩

/-- C3 counterexample: on the queue `[ts=100, ts=50, ts=0]` (newest first)
with `delaySeconds = 40e-6` (so `delayTime = 40` microseconds), the tail
element `ts=0` is queued, is the oldest element (the last), and its age
`100 - 0 = 100` exceeds the delay, so the claim requires it to be returned;
but `getData` returns the element `ts=50`, the newest element at least
`delayTime` old. -/
theorem getData_delaySeconds_counterexample :
    getData true [⟨"", "", 100⟩, ⟨"", "", 50⟩, ⟨"", "", 0⟩] (-1) (40 / 1000000)
      = .ok ⟨"", "", 50⟩ ∧
    ([⟨"", "", 100⟩, ⟨"", "", 50⟩, ⟨"", "", 0⟩] : List DataSample).getLastI
      = ⟨"", "", 0⟩ ∧
    ((((100 : ℤ) - (0 : ℤ)) : ℤ) : ℚ) > (40 / 1000000) / TIMESTAMP_RES ∧
    (DataSample.mk "" "" 50) ≠ (DataSample.mk "" "" 0) := by
  refine ⟨?_, by simp [List.getLastI_eq_getLast?], by norm_num [TIMESTAMP_RES], by simp⟩
  simp only [getData, Bool.not_true, Bool.false_eq_true, if_false]
  rw [if_neg (by rintro ⟨hc, _⟩; norm_num at hc), if_neg (by norm_num),
    if_pos (by norm_num)]
  norm_num [timeScan, TIMESTAMP_RES, List.headI]

/-- C3 amended: for `delaySamples < 0` and `delaySeconds ≥ 0`, `getData`
returns the NEWEST (lowest-index, scanning from the head) queued element
whose age `head.timestamp - elem.timestamp` is at least
`delaySeconds / 1e-6` microseconds (not the oldest such element, and the
comparison is `≥`, not strict); if no queued element is that old, the call
fails with `OutOfRange`. -/
theorem getData_delaySeconds_newest (q : List DataSample) (ds : Int) (dsec : ℚ)
    (h1 : ds < 0) (h2 : dsec ≥ 0) :
    (getData true q ds dsec = .error .outOfRange ↔
      ∀ j < q.length,
        ((q.headI.timestamp - (q.getD j default).timestamp : ℤ) : ℚ) < dsec / TIMESTAMP_RES) ∧
    (∀ i < q.length,
      ¬ ((q.headI.timestamp - (q.getD i default).timestamp : ℤ) : ℚ) < dsec / TIMESTAMP_RES →
      (∀ j < i,
        ((q.headI.timestamp - (q.getD j default).timestamp : ℤ) : ℚ) < dsec / TIMESTAMP_RES) →
      getData true q ds dsec = .ok (q.getD i default)) := by
  have hred : getData true q ds dsec =
      (if timeScan q.headI.timestamp (dsec / TIMESTAMP_RES) q ≥ q.length
       then .error .outOfRange
       else .ok (q.getD (timeScan q.headI.timestamp (dsec / TIMESTAMP_RES) q) default)) := by
    simp only [getData, Bool.not_true, Bool.false_eq_true, if_false]
    rw [if_neg (by rintro ⟨hc, _⟩; omega), if_neg (by omega), if_pos h2]
  constructor
  · rw [hred]
    constructor
    · intro herr j hj
      by_cases hts : timeScan q.headI.timestamp (dsec / TIMESTAMP_RES) q ≥ q.length
      · exact timeScan_prefix_lt q.headI.timestamp (dsec / TIMESTAMP_RES) q j (by omega)
      · rw [if_neg hts] at herr
        cases herr
    · intro hall
      rw [if_pos ?_]
      by_contra hts
      push_neg at hts
      exact timeScan_stop_ge q.headI.timestamp (dsec / TIMESTAMP_RES) q hts
        (hall _ hts)
  · intro i hi hge hbelow
    have hts : timeScan q.headI.timestamp (dsec / TIMESTAMP_RES) q = i :=
      timeScan_eq_of_first q.headI.timestamp (dsec / TIMESTAMP_RES) q i hi hge hbelow
    rw [hred, hts, if_neg (by omega)]

/-- Witness for the amended C3 on the counterexample queue: the element at
index 1 (`ts=50`) is the newest one at least 40 microseconds old and is
returned. -/
theorem getData_delaySeconds_newest_witness :
    getData true [⟨"", "", 100⟩, ⟨"", "", 50⟩, ⟨"", "", 0⟩] (-1) (40 / 1000000)
      = .ok (([⟨"", "", 100⟩, ⟨"", "", 50⟩, ⟨"", "", 0⟩] : List DataSample).getD 1 default) :=
  (getData_delaySeconds_newest [⟨"", "", 100⟩, ⟨"", "", 50⟩, ⟨"", "", 0⟩] (-1)
      (40 / 1000000) (by norm_num) (by norm_num)).2 1 (by norm_num)
    (by norm_num [List.headI, TIMESTAMP_RES])
    (by
      intro j hj
      interval_cases j
      norm_num [List.headI, TIMESTAMP_RES])

/-- `receiveAsyncDyn` in the `delta <= 0` branch, in closed form. -/
theorem receiveAsyncDyn_eq_of_nonpos (K : Int) (T : ℚ) (st : DynPortState)
    (s : DataSample) (h : dynDelta K T st s ≤ 0) :
    receiveAsyncDyn K T st s =
      { queue := addToQueue K T st.queue s
        semN := st.semN.getD 1 + (-(dynDelta K T st s)).toNat
        semAvail := st.semAvail + (1 - dynDelta K T st s).toNat
        released := (1 - dynDelta K T st s).toNat
        acquired := 0
        transmitted := true } := by
  simp only [dynDelta] at h ⊢
  simp only [receiveAsyncDyn]
  rw [if_pos h]

/-- `receiveAsyncDyn` in the `delta > 0` branch, in closed form (using the
`tryAcquireLoop` characterization). -/
theorem receiveAsyncDyn_eq_of_pos (K : Int) (T : ℚ) (st : DynPortState)
    (s : DataSample) (h : 0 < dynDelta K T st s) :
    receiveAsyncDyn K T st s =
      { queue := addToQueue K T st.queue s
        semN := st.semN.getD 1 - 1 - min (dynDelta K T st s - 1).toNat st.semAvail
        semAvail := st.semAvail - min (dynDelta K T st s - 1).toNat st.semAvail
        released := 0
        acquired := min (dynDelta K T st s - 1).toNat st.semAvail
        transmitted := true } := by
  simp only [dynDelta] at h ⊢
  simp only [receiveAsyncDyn]
  rw [if_neg (not_le.mpr h), tryAcquireLoop_eq]

/-- C4: `receiveAsync` with `interthreadDynamicQueue` enabled and a non-null
semaphore: with `N` the per-semaphore counter initialized to 1 on first sight
and `delta = N - queue.size()` computed after the sample is enqueued, if
`delta ≤ 0` exactly `1 - delta` permits are released and `N` increases by
`-delta`; if `delta > 0`, `N` is decremented by 1 for the already-held
permit, then up to `delta - 1` additional `tryAcquire` attempts succeed while
permits remain (stopping at the first failure), decrementing `N` once per
success; in all cases `transmit` (hence the `onPortDataChanged` path) is
invoked afterwards. -/
theorem receiveAsyncDyn_accounting (K : Int) (T : ℚ) (st : DynPortState)
    (s : DataSample) :
    (receiveAsyncDyn K T st s).queue = addToQueue K T st.queue s ∧
    (receiveAsyncDyn K T st s).transmitted = true ∧
    (dynDelta K T st s ≤ 0 →
      (receiveAsyncDyn K T st s).released = (1 - dynDelta K T st s).toNat ∧
      (receiveAsyncDyn K T st s).acquired = 0 ∧
      ((receiveAsyncDyn K T st s).semN : Int)
        = ((st.semN.getD 1 : Nat) : Int) + (-(dynDelta K T st s)) ∧
      (receiveAsyncDyn K T st s).semAvail
        = st.semAvail + (1 - dynDelta K T st s).toNat) ∧
    (dynDelta K T st s > 0 →
      (receiveAsyncDyn K T st s).released = 0 ∧
      (receiveAsyncDyn K T st s).acquired
        = min (dynDelta K T st s - 1).toNat st.semAvail ∧
      ((receiveAsyncDyn K T st s).semN : Int)
        = ((st.semN.getD 1 : Nat) : Int) - 1 - ((receiveAsyncDyn K T st s).acquired : Int) ∧
      (receiveAsyncDyn K T st s).semAvail
        = st.semAvail - (receiveAsyncDyn K T st s).acquired) := by
  have hlen : 1 ≤ (addToQueue K T st.queue s).length :=
    List.length_pos.mpr (addToQueue_ne_nil K T st.queue s)
  have hdval : dynDelta K T st s
      = ((st.semN.getD 1 : Nat) : Int) - ((addToQueue K T st.queue s).length : Int) := rfl
  by_cases hd : dynDelta K T st s ≤ 0
  · rw [receiveAsyncDyn_eq_of_nonpos K T st s hd]
    refine ⟨rfl, rfl, fun _ => ⟨rfl, rfl, ?_, rfl⟩, fun hgt => absurd hgt (not_lt.mpr hd)⟩
    push_cast
    omega
  · push_neg at hd
    rw [receiveAsyncDyn_eq_of_pos K T st s hd]
    refine ⟨rfl, rfl, fun hle => absurd hd (not_lt.mpr hle), fun _ => ⟨rfl, rfl, ?_, rfl⟩⟩
    have hge2 : 2 ≤ st.semN.getD 1 := by omega
    have hmin : min (dynDelta K T st s - 1).toNat st.semAvail
        ≤ (dynDelta K T st s - 1).toNat := Nat.min_le_left _ _
    push_cast
    omega

/-- Witness for C4 in the `delta > 0` case: queue empty, counter 5, two
permits available, `K = 10`; after enqueuing one sample `delta = 4`, and of
the three extra acquire attempts exactly two succeed (two permits were
available). -/
theorem receiveAsyncDyn_accounting_witness :
    dynDelta 10 0 ⟨[], some 5, 2⟩ ⟨"", "", 0⟩ > 0 ∧
    (receiveAsyncDyn 10 0 ⟨[], some 5, 2⟩ ⟨"", "", 0⟩).released = 0 ∧
    (receiveAsyncDyn 10 0 ⟨[], some 5, 2⟩ ⟨"", "", 0⟩).acquired
      = min (dynDelta 10 0 ⟨[], some 5, 2⟩ ⟨"", "", 0⟩ - 1).toNat 2 := by
  have hq : addToQueue 10 0 [] (⟨"", "", 0⟩ : DataSample) = [⟨"", "", 0⟩] := by
    unfold addToQueue
    norm_num [evictCount_eq_take]
  have hpos : dynDelta 10 0 ⟨[], some 5, 2⟩ ⟨"", "", 0⟩ > 0 := by
    rw [dynDelta]
    simp only [hq]
    norm_num
  have h := (receiveAsyncDyn_accounting 10 0 ⟨[], some 5, 2⟩ ⟨"", "", 0⟩).2.2.2 hpos
  exact ⟨hpos, h.1, h.2.1⟩

/-- `Executor::step` on a non-stopped executor, in closed form. -/
theorem Executor_step_eq (st : ExecState) (f : Option Nat)
    (hs : st.stopped = false) :
    Executor_step st f =
      (match scanPending (stepBlocked st f) st.pending with
       | some (ev, rest) =>
           (true, { st with pending := rest, blocked := stepBlockedAfter st f }, some ev)
       | none =>
           (false, { st with blocked := stepBlockedAfter st f }, none)) := by
  unfold Executor_step
  rw [hs]
  simp only [Bool.false_eq_true, if_false]

/-- C5: for `Executor::step(fromFilter)` on a non-stopped executor: the
dispatched event (if any) is the first element of the pending FIFO, scanned
front-to-back, whose destination filter is not in the blocked set (which
contains `fromFilter` for the duration of the call); nothing is dispatched
iff every pending event's filter is blocked; the call returns `true` iff it
popped and dispatched an event; and a non-null `fromFilter` is in the
blocked set during the call and, if it was not blocked before, the blocked
set is restored afterwards. -/
theorem executor_step_spec (st : ExecState) (f : Option Nat)
    (hs : st.stopped = false) :
    (∀ ev, (Executor_step st f).2.2 = some ev →
      ∃ i, i < st.pending.length ∧ st.pending.getD i default = ev ∧
        ev.filter ∉ stepBlocked st f ∧
        (∀ j < i, (st.pending.getD j default).filter ∈ stepBlocked st f) ∧
        (Executor_step st f).2.1.pending = st.pending.eraseIdx i) ∧
    ((Executor_step st f).2.2 = none ↔
      ∀ ev ∈ st.pending, ev.filter ∈ stepBlocked st f) ∧
    ((Executor_step st f).1 = true ↔ (Executor_step st f).2.2.isSome) ∧
    (∀ fv, f = some fv → fv ∈ stepBlocked st f ∧
      (fv ∉ st.blocked → (Executor_step st f).2.1.blocked = st.blocked)) := by
  rw [Executor_step_eq st f hs]
  refine ⟨?_, ?_, ?_, ?_⟩
  · intro ev hev
    rcases hsc : scanPending (stepBlocked st f) st.pending with _ | ⟨e, rest⟩
    · rw [hsc] at hev
      have hev' : (none : Option ReceiveEvent) = some ev := hev
      cases hev'
    · rw [hsc] at hev
      have hev' : some e = some ev := hev
      injection hev' with he
      subst he
      obtain ⟨i, hi, hget, hnb, hpre, hrest⟩ :=
        scanPending_some_spec (stepBlocked st f) st.pending e rest hsc
      refine ⟨i, hi, hget, hnb, hpre, ?_⟩
      show rest = st.pending.eraseIdx i
      exact hrest
  · rcases hsc : scanPending (stepBlocked st f) st.pending with _ | ⟨e, rest⟩
    · constructor
      · intro _
        exact (scanPending_none_iff (stepBlocked st f) st.pending).mp hsc
      · intro _
        rfl
    · constructor
      · intro hcon
        have hcon' : some e = (none : Option ReceiveEvent) := hcon
        cases hcon'
      · intro hall
        have h0 := (scanPending_none_iff (stepBlocked st f) st.pending).mpr hall
        rw [h0] at hsc
        cases hsc
  · rcases hsc : scanPending (stepBlocked st f) st.pending with _ | ⟨e, rest⟩
    · exact ⟨fun h => absurd h Bool.false_ne_true, fun h => absurd h Bool.false_ne_true⟩
    · exact ⟨fun _ => rfl, fun _ => rfl⟩
  · intro fv hf
    subst hf
    refine ⟨by simp [stepBlocked], ?_⟩
    intro hnb
    have herase : stepBlockedAfter st (some fv) = st.blocked := by
      rw [stepBlockedAfter]
      simp only [stepBlocked]
      exact Finset.erase_insert hnb
    rcases hsc : scanPending (stepBlocked st (some fv)) st.pending with _ | ⟨e, rest⟩
    · exact herase
    · exact herase

/-- Witness for C5: a two-event FIFO where the first event targets the
calling filter 5; the call blocks 5 and restores the blocked set on
return. -/
theorem executor_step_spec_witness :
    (5 : Nat) ∉ (∅ : Finset Nat) ∧
    (Executor_step ⟨[⟨0, 5, ⟨"", "", 0⟩, false⟩, ⟨1, 7, ⟨"", "", 0⟩, true⟩], ∅, false⟩
        (some 5)).2.1.blocked = (∅ : Finset Nat) :=
  ⟨by simp,
   ((executor_step_spec
        ⟨[⟨0, 5, ⟨"", "", 0⟩, false⟩, ⟨1, 7, ⟨"", "", 0⟩, true⟩], ∅, false⟩
        (some 5) rfl).2.2.2 5 rfl).2 (by simp)⟩

/-- C6: a sample delivery whose `onPortDataChanged` callback raises an
exception: the exception is caught inside the runtime
(`BaseFilterEnvironment::portDataChanged` catches it; `receiveSync` is total
in the model because its own `try/catch` swallows everything), an
Error-level message is logged, the sample was still enqueued, and a
subsequent sample delivered to the same filter still triggers its
callback. -/
theorem receiveSync_exception_tolerance (K : Int) (T : ℚ) (q : List DataSample)
    (s s2 : DataSample) (msg : String) :
    (receiveSync K T .active true q s (.error msg)).callbackInvoked = true ∧
    ((LogLevel.error, "Unexpected exception during onPortDataChanged: " ++ msg)
        ∈ (receiveSync K T .active true q s (.error msg)).logs) ∧
    (receiveSync K T .active true q s (.error msg)).queue = addToQueue K T q s ∧
    (receiveSync K T .active true
        (receiveSync K T .active true q s (.error msg)).queue s2 (.ok ())).callbackInvoked
      = true := by
  refine ⟨rfl, ?_, rfl, rfl⟩
  simp [receiveSync, portDataChanged]

/-- C7 counterexample: with the receiving filter in state `Constructed`
(not `Active`), a `transmit` on the owning thread does not fail with
`InvalidState`: it emits the sample and the direct delivery runs (the
receiving side discards it and logs, but `transmit` itself succeeds),
because `OutputPortInterface::transmit` checks only the calling thread and
never the lifecycle state. -/
theorem transmit_no_state_check_counterexample :
    FilterState.constructed ≠ FilterState.active ∧
    (transmitDirect true .constructed true 1 0 [] ⟨"", "", 0⟩ (.ok ())).1
      = .emitted ∧
    ((transmitDirect true .constructed true 1 0 [] ⟨"", "", 0⟩ (.ok ())).2.map
        RcvSyncResult.callbackInvoked) = some false :=
  ⟨by simp, rfl, rfl⟩

/-- C7 amended: `OutputPortInterface::transmit` performs no lifecycle-state
check at all — on the owning thread it emits in every state (off the owning
thread it throws `WrongThread`).  The state check sits on the receiving
side, in `BaseFilterEnvironment::portDataChanged`: the user callback
`onPortDataChanged` is invoked only in `Active`; in `Opened` the sample is
discarded with an Info log; in any other non-`Active` state
`portDataChanged` throws (and the throw is caught and Error-logged by
`receiveSync`).  So samples are delivered to `onPortDataChanged` only while
the filter is `Active`, but `transmit` itself never fails with
`InvalidState`. -/
theorem transmit_state_amended (state : FilterState) (hasPlugin : Bool)
    (cb : Except String Unit) :
    (∀ onOwnThread : Bool,
        OutputPort_transmit onOwnThread = .emitted ↔ onOwnThread = true) ∧
    (∀ invoked logs, portDataChanged state hasPlugin cb = .ok (invoked, logs) →
        invoked = true → state = .active ∧ hasPlugin = true) ∧
    (state = .active → hasPlugin = true →
        ∃ logs, portDataChanged state hasPlugin cb = .ok (true, logs)) ∧
    (state ≠ .active → state ≠ .opened →
        ∃ e, portDataChanged state hasPlugin cb = .error e) ∧
    (state = .opened →
        ∃ m, portDataChanged state hasPlugin cb = .ok (false, [(LogLevel.info, m)])) := by
  refine ⟨?_, ?_, ?_, ?_, ?_⟩
  · intro onOwnThread
    cases onOwnThread <;> simp [OutputPort_transmit]
  · intro invoked logs hok hinv
    subst hinv
    by_cases ha : state = .active
    · subst ha
      refine ⟨rfl, ?_⟩
      by_cases hp : hasPlugin
      · exact hp
      · simp only [portDataChanged,
          if_neg (by exact fun hc => hc rfl : ¬ (FilterState.active ≠ FilterState.active)),
          hp, Bool.false_eq_true, if_false] at hok
        injection hok with h1
        injection h1 with h2
        exact Bool.noConfusion h2
    · exfalso
      by_cases ho : state = .opened
      · subst ho
        simp only [portDataChanged] at hok
        rw [if_pos (by simp)] at hok
        rw [if_neg (by simp)] at hok
        injection hok with h1
        injection h1 with h2
        exact Bool.noConfusion h2
      · simp only [portDataChanged, if_pos ha, if_pos ho] at hok
        cases hok
  · intro ha hp
    subst ha
    subst hp
    simp only [portDataChanged,
      if_neg (by exact fun hc => hc rfl : ¬ (FilterState.active ≠ FilterState.active))]
    match cb with
    | .ok _ => exact ⟨[], rfl⟩
    | .error e =>
        exact ⟨[(.error, "Unexpected exception during onPortDataChanged: " ++ e)], rfl⟩
  · intro ha ho
    simp only [portDataChanged, if_pos ha, if_pos ho]
    exact ⟨_, rfl⟩
  · intro ho
    subst ho
    simp only [portDataChanged]
    rw [if_pos (by simp), if_neg (by simp)]
    exact ⟨_, rfl⟩

/-- Witness for C7 (amended): in state `Opened` the receiving side discards
the sample with an Info log; in state `Active` with a plugin the callback
runs. -/
theorem transmit_state_amended_witness :
    (∃ m, portDataChanged .opened true (.ok ())
        = .ok (false, [(LogLevel.info, m)])) ∧
    (∃ logs, portDataChanged .active true (.ok ()) = .ok (true, logs)) :=
  ⟨(transmit_state_amended .opened true (.ok ())).2.2.2.2 rfl,
   (transmit_state_amended .active true (.ok ())).2.2.1 rfl rfl⟩

/-- C8: after `Executor::clear()` the executor is stopped with empty pending
FIFO and blocked set; every subsequent `registerPendingRcvSync`,
`registerPendingRcvAsync` or `step` leaves the state unchanged (registers
are no-ops because of the `if(!stopped)` guard), and any subsequent `step`
returns `false` and dispatches nothing — a sample received after `clear()`
is dropped and no callback occurs. -/
theorem executor_clear_spec (st : ExecState) (ops : List ExecOp) (f : Option Nat) :
    (Executor_clear st).stopped = true ∧
    (Executor_clear st).pending = [] ∧
    (Executor_clear st).blocked = ∅ ∧
    applyOps (Executor_clear st) ops = Executor_clear st ∧
    (Executor_step (applyOps (Executor_clear st) ops) f).1 = false ∧
    (Executor_step (applyOps (Executor_clear st) ops) f).2.2 = none := by
  have hfix : ∀ op, applyOp (Executor_clear st) op = Executor_clear st := by
    intro op
    cases op with
    | regSync p fl s => simp [applyOp, registerPendingRcvSync, Executor_clear]
    | regAsync p fl s => simp [applyOp, registerPendingRcvAsync, Executor_clear]
    | stepOp g => simp [applyOp, Executor_step, Executor_clear]
  have hops : applyOps (Executor_clear st) ops = Executor_clear st := by
    induction ops with
    | nil => rfl
    | cons op rest ih =>
      rw [applyOps, List.foldl_cons, hfix op]
      exact ih
  refine ⟨rfl, rfl, rfl, hops, ?_, ?_⟩
  · rw [hops]
    simp [Executor_step, Executor_clear]
  · rw [hops]
    simp [Executor_step, Executor_clear]

/-- C9: a freshly constructed `InterThreadConnection` has `stopped = true`
(`InterThreadConnectionD(1)` initializes `stopped(true)`), so every
`receiveSample` that arrives before the first `setStopped(false)` discards
its sample with a warning, never emits `transmitInterThread`, and leaves the
state unchanged; a sample can only be forwarded once the connection has been
started (`stopped = false`). -/
theorem itc_starts_stopped :
    mkInterThreadConnection.stopped = true ∧
    (ITC_receiveSample mkInterThreadConnection).1 = .dropped ∧
    (ITC_receiveSample mkInterThreadConnection).2.1 = mkInterThreadConnection ∧
    (ITC_receiveSample mkInterThreadConnection).2.2
      = [(LogLevel.warn,
          "The inter-thread connection is set to stopped mode; data sample discarded.")] ∧
    (∀ st : ITCState, st.stopped = true →
      (ITC_receiveSample st).1 = .dropped ∧ (ITC_receiveSample st).2.1 = st) ∧
    (∀ st : ITCState, (ITC_receiveSample st).1 = .forwarded → st.stopped = false) ∧
    (∀ st : ITCState, st.semAvail ≥ 1 →
      (ITC_receiveSample (ITC_setStopped st false)).1 = .forwarded) := by
  refine ⟨rfl, rfl, rfl, rfl, ?_, ?_, ?_⟩
  · intro st hst
    constructor <;> simp [ITC_receiveSample, hst]
  · intro st hfwd
    by_cases hst : st.stopped
    · simp [ITC_receiveSample, hst] at hfwd
    · simpa using hst
  · intro st hge
    simp [ITC_receiveSample, ITC_setStopped, hge]

/-- Witness for C9: a stopped connection with a free permit still drops;
after `setStopped(false)` it forwards. -/
theorem itc_starts_stopped_witness :
    ((⟨1, true⟩ : ITCState).stopped = true ∧
      (ITC_receiveSample ⟨1, true⟩).1 = .dropped) ∧
    ((⟨1, true⟩ : ITCState).semAvail ≥ 1 ∧
      (ITC_receiveSample (ITC_setStopped ⟨1, true⟩ false)).1 = .forwarded) :=
  ⟨⟨rfl, (itc_starts_stopped.2.2.2.2.1 ⟨1, true⟩ rfl).1⟩,
   ⟨by norm_num, itc_starts_stopped.2.2.2.2.2.2 ⟨1, true⟩ (by norm_num)⟩⟩

/-- C10: `BaseFilterEnvironment::setDynamicPortsSupported` is not atomic on
failure: it overwrites both support flags before checking for existing
dynamic ports, so when it throws because a dynamic port exists while support
was declared false, the flags keep the new values instead of being rolled
back. -/
theorem setDynamicPortsSupported_not_atomic (st : EnvState) (dIn dOut : Bool) :
    (setDynamicPortsSupported st dIn dOut).1.dynamicInputPortsSupported = dIn ∧
    (setDynamicPortsSupported st dIn dOut).1.dynamicOutputPortsSupported = dOut ∧
    (setDynamicPortsSupported st dIn dOut).1.dynamicInputPorts = st.dynamicInputPorts ∧
    (setDynamicPortsSupported st dIn dOut).1.dynamicOutputPorts = st.dynamicOutputPorts ∧
    (dIn = false → st.dynamicInputPorts ≠ [] →
      (setDynamicPortsSupported st dIn dOut).2.isSome = true) ∧
    ((setDynamicPortsSupported st dIn dOut).2.isSome = true →
      (dIn = false ∧ st.dynamicInputPorts ≠ []) ∨
      (dOut = false ∧ st.dynamicOutputPorts ≠ [])) := by
  unfold setDynamicPortsSupported
  by_cases h1 : (!dIn) = true ∧ st.dynamicInputPorts.length > 0
  · rw [if_pos h1]
    refine ⟨rfl, rfl, rfl, rfl, fun _ _ => rfl, fun _ => ?_⟩
    left
    refine ⟨by simpa using h1.1, ?_⟩
    have := h1.2
    intro hc
    rw [hc] at this
    simp at this
  · rw [if_neg h1]
    by_cases h2 : (!dOut) = true ∧ st.dynamicOutputPorts.length > 0
    · rw [if_pos h2]
      refine ⟨rfl, rfl, rfl, rfl, ?_, fun _ => ?_⟩
      · intro hin hne
        exfalso
        apply h1
        refine ⟨by simp [hin], ?_⟩
        have := List.length_pos.mpr hne
        omega
      · right
        refine ⟨by simpa using h2.1, ?_⟩
        have := h2.2
        intro hc
        rw [hc] at this
        simp at this
    · rw [if_neg h2]
      refine ⟨rfl, rfl, rfl, rfl, ?_, ?_⟩
      · intro hin hne
        exfalso
        apply h1
        refine ⟨by simp [hin], ?_⟩
        have := List.length_pos.mpr hne
        omega
      · intro hcon
        simp at hcon

/-- Witness for C10: support for dynamic input ports retracted while one
exists — the call throws and the flags keep the new `false` values. -/
theorem setDynamicPortsSupported_not_atomic_witness :
    (setDynamicPortsSupported ⟨true, true, ["dynport"], []⟩ false false).2.isSome = true ∧
    (setDynamicPortsSupported ⟨true, true, ["dynport"], []⟩ false false).1.dynamicInputPortsSupported
      = false :=
  ⟨(setDynamicPortsSupported_not_atomic ⟨true, true, ["dynport"], []⟩ false false).2.2.2.2.1
      rfl (by simp),
   (setDynamicPortsSupported_not_atomic ⟨true, true, ["dynport"], []⟩ false false).1⟩

end NexxT
